import Mathlib

/-
Verification of the godbsql SQL driver (src/sql.go) against its
natural-language specification.

The development shallowly embeds the query-building core of the driver:
the filter AST and its compiler `prepareFilters`, the soft-delete rewriter
`prepareSoftDelete`, the foreign-key name munger `prepareForeignKey`, the
relation-path splitting of `Connection.Get`, the `SELECT`/`UPDATE`/`DELETE`
statement builders, and the early-return behaviour of the three relation
loaders.  Go strings are Lean `String`s; Go `int` counters are `Int`;
Go `any` values carried in filters are the opaque `Value` type; Go maps
used as payloads are association lists with Go map semantics; SQL execution
is abstracted by oracle functions, and each issued statement is recorded as
a `DbAction` so theorems can speak about which SQL a call site issues.
-/

namespace godbsql

/- ===== Go standard-library primitives used by sql.go ===== -/

/-- Model of Go `strings.Split(s, sep)` for a one-character separator,
on the character list of the string.  `strings.Split("", sep)` is `[""]`,
hence the `[[]]` base case. -/
def splitOnChar (sep : Char) : List Char → List (List Char)
  | [] => [[]]
  | c :: rest =>
    let r := splitOnChar sep rest
    if c = sep then [] :: r
    else
      match r with
      | [] => [[c]]
      | g :: gs => (c :: g) :: gs

/-- Go `strings.Split` with a one-character separator, as a `String` function. -/
def goSplit (s : String) (sep : Char) : List String :=
  (splitOnChar sep s.data).map String.mk

/-- Go `strings.Contains(s, sub)` for a one-character `sub`. -/
def goContains (s : String) (c : Char) : Bool :=
  s.data.contains c

/-- ASCII upper-casing of one character, as Go `strings.ToUpper` does for
the ASCII strings the driver feeds it. -/
def asciiUpperChar (c : Char) : Char :=
  if 97 ≤ c.toNat ∧ c.toNat ≤ 122 then Char.ofNat (c.toNat - 32) else c

/-- Go `strings.ToUpper` on ASCII input. -/
def goToUpper (s : String) : String :=
  String.mk (s.data.map asciiUpperChar)

/-- Decimal rendering of a natural number, the digits of Go `fmt.Sprintf("%d", n)`. -/
def decimalDigits (n : Nat) : List Char :=
  Nat.toDigits 10 n

/-- Go `fmt.Sprintf("%d", n)` for a Go `int` modeled as `Int`. -/
def showInt (n : Int) : String :=
  if n < 0 then "-" ++ String.mk (decimalDigits (-n).toNat)
  else String.mk (decimalDigits n.toNat)

/-- The output of Go's loop `for i, col := range cols { if i > 0 { out += ", " }; out += col }`. -/
def joinComma : List String → String
  | [] => ""
  | [c] => c
  | c :: rest => c ++ ", " ++ joinComma rest

/- ===== Values, payload maps and entities ===== -/

/-- A Go `any` value as the driver carries it: filter operands and payload
columns.  `raw` models a value wrapped in the `RawSQL` string type that the
repository's README documents (`type RawSQL string`); the driver never
inspects values, so a small closed universe suffices. -/
inductive Value where
  | null
  | str (s : String)
  | int (n : Int)
  | time (t : String)
  | raw (s : String)
deriving DecidableEq, Repr

/-- Go `map[string]any` lookup (`v, ok := m[k]`), on an association list. -/
def mapGet : List (String × Value) → String → Option Value
  | [], _ => none
  | (k', v) :: rest, k => if k' = k then some v else mapGet rest k

/-- Go `m[k] = v`: replace the binding of `k` if present, else add it. -/
def mapSet : List (String × Value) → String → Value → List (String × Value)
  | [], k, v => [(k, v)]
  | (k', v') :: rest, k, v =>
    if k' = k then (k, v) :: rest else (k', v') :: mapSet rest k v

/-- Go `delete(m, k)`. -/
def mapDel (m : List (String × Value)) (k : String) : List (String × Value) :=
  m.filter (fun e => e.1 ≠ k)

/-- A scanned row / parent model as the loaders see it through reflection:
named fields holding values.  `FieldByName` is association-list lookup. -/
structure Entity where
  fields : List (String × Value)
deriving DecidableEq, Repr

/-- `reflect.Value.FieldByName` followed by `.Interface()`; `none` is an
invalid (absent) field. -/
def Entity.fieldByName (e : Entity) (name : String) : Option Value :=
  mapGet e.fields name

/- ===== The filter AST (definitions/models of godb) ===== -/

/-- The comparator and operator constants of src/sql.go. -/
def ComparatorIn : String := "IN"

def ComparatorNotIn : String := "NOT IN"

def ComparatorIsNull : String := "IS NULL"

def ComparatorIsNotNull : String := "IS NOT NULL"

def OperatorAnd : String := "AND"

def OperatorOr : String := "OR"

mutual
/-- One element of `GroupFilter.Filters` (a Go `any` that `prepareFilters`
type-switches on): `models.Filter`, `models.FilterMultipleValue`, or a nested
`models.GroupFilter` (its `Operator` and `Filters` fields inlined). -/
inductive Filter where
  | single (key : String) (value : Value) (comparator : Option String) (operator : Option String)
  | multiple (key : String) (values : List Value) (comparator : Option String)
  | group (operator : String) (filters : FilterList)

/-- The `Filters []any` slice of a `models.GroupFilter`. -/
inductive FilterList where
  | nil
  | cons (f : Filter) (fs : FilterList)
end

/-- `models.GroupFilter`: the top-level filter argument of every CRUD call. -/
structure GroupFilter where
  operator : String
  filters : FilterList

/-- Appending to a `Filters` slice (Go `append`). -/
def FilterList.append : FilterList → FilterList → FilterList
  | .nil, gs => gs
  | .cons f fs, gs => .cons f (fs.append gs)

/-- Go `len(filters.Filters)`. -/
def FilterList.length : FilterList → Nat
  | .nil => 0
  | .cons _ fs => fs.length + 1

/-- `models.Options` as src/sql.go reads it. -/
structure Options where
  columns : Option (List String) := none
  limit : Int := 0
  offset : Int := 0
  orderColumn : String := ""
  orderDir : String := ""
  relations : List String := []
  primaryKey : Option String := none
  insertPrimaryKey : Option Bool := none
  timestampsFields : Option Bool := none
deriving DecidableEq, Repr

/-- The repository binding `Connection[T]` (the `*sql.DB` handle and the
relation-loader map are abstracted away; order columns keep only the key set
of the Go `map[string]string`, which is all `Get` reads of it). -/
structure Connection where
  table : String
  orderColumns : List String
  softDelete : Option String
deriving DecidableEq, Repr

/- ===== prepareFilters: the filter-to-SQL compiler (src/sql.go 1045-1124) ===== -/

/-- The diagnostic `log.Println` line emitted for a `models.Filter` whose
comparator is `IN` or `NOT IN`. -/
def filterInLogMessage : String :=
  "models.Filter not support 'IN' or 'NOT IN' comparator, use models.FilterMultipleValue"

/-- The inner loop of the `FilterMultipleValue` branch: one `$n` placeholder
per value, comma-separated; `subitems` starts at 1 and a separator is written
only when `subitems > 1`. Returns the written text, the collected values and
the advanced counter. -/
def multiValuesLoop : List Value → Int → Nat → String × List Value × Int
  | [], counter, _ => ("", [], counter)
  | v :: vs, counter, subitems =>
    let piece := (if 1 < subitems then ", " else "") ++ "$" ++ showInt counter
    let rest := multiValuesLoop vs (counter + 1) (subitems + 1)
    (piece ++ rest.1, v :: rest.2.1, rest.2.2)

mutual
/-- The body of one iteration of `prepareFilters`' loop: what `currentParts`,
`currentVals`, the counter and the log lines are after processing one element.
Mirrors the three type-switch branches of src/sql.go lines 1058-1105. -/
def compileOne : Filter → Int → String × List Value × Int × List String
  | .single key value cmp _op, counter =>
    let comparator := cmp.getD "="
    if comparator ≠ ComparatorIsNull ∧ comparator ≠ ComparatorIsNotNull ∧
        comparator ≠ ComparatorIn ∧ comparator ≠ ComparatorNotIn then
      (key ++ " " ++ comparator ++ " $" ++ showInt counter, [value], counter + 1, [])
    else if comparator = ComparatorIn ∨ comparator = ComparatorNotIn then
      ("", [], counter, [filterInLogMessage])
    else
      (key ++ " " ++ comparator, [], counter, [])
  | .multiple key values cmp, counter =>
    let comparator := cmp.getD "IN"
    if comparator = ComparatorIn ∨ comparator = ComparatorNotIn then
      let r := multiValuesLoop values counter 1
      (key ++ " " ++ comparator ++ " (" ++ r.1 ++ ")", r.2.1, r.2.2, [])
    else
      ("", [], counter, [])
  | .group op fs, counter =>
    let start := if counter ≤ 0 then 1 else counter
    let r := prepareFiltersCore op fs "" [] start []
    if r.1 = "" then ("", [], r.2.2.1, r.2.2.2)
    else ("(" ++ r.1 ++ ")", r.2.1, r.2.2.1, r.2.2.2)

/-- The loop of `prepareFilters` over the group's elements, carrying the
query builder, the value list, the placeholder counter and the emitted log
lines.  A sibling that produced text is joined to a non-empty builder with
the group's operator (`AND` when the operator field is empty). -/
def prepareFiltersCore (op : String) : FilterList → String → List Value → Int → List String → String × List Value × Int × List String
  | .nil, qb, vals, counter, logs => (qb, vals, counter, logs)
  | .cons f fs, qb, vals, counter, logs =>
    let r := compileOne f counter
    if r.1 = "" then
      prepareFiltersCore op fs qb vals r.2.2.1 (logs ++ r.2.2.2)
    else
      let qb2 :=
        if qb = "" then r.1
        else qb ++ " " ++ (if op = "" then OperatorAnd else op) ++ " " ++ r.1
      prepareFiltersCore op fs qb2 (vals ++ r.2.1) r.2.2.1 (logs ++ r.2.2.2)
end

/-- `prepareFilters(filters, counter)`: normalizes a non-positive counter to 1
and folds the group.  Returns (fragment, args, next counter, log lines). -/
def prepareFilters (g : GroupFilter) (counter : Int) : String × List Value × Int × List String :=
  let start := if counter ≤ 0 then 1 else counter
  prepareFiltersCore g.operator g.filters "" [] start []

/- ===== prepareSoftDelete (src/sql.go 1126-1154) ===== -/

/-- `prepareSoftDelete(softDelete, filters)`: appends to a non-empty group a
nested group whose single child is `softDelete IS NULL`; replaces an empty
group by that nested group. -/
def prepareSoftDelete (softDelete : Option String) (filters : GroupFilter) : GroupFilter :=
  match softDelete with
  | none => filters
  | some d =>
    if d = "" then filters
    else
      let newGroupFilters : FilterList :=
        .cons (.single d Value.null (some ComparatorIsNull) (some OperatorOr)) .nil
      if 0 < filters.filters.length then
        { filters with filters := filters.filters.append (.cons (.group OperatorOr newGroupFilters) .nil) }
      else
        { operator := OperatorOr, filters := newGroupFilters }

/- ===== prepareForeignKey (src/sql.go 1156-1173) ===== -/

/-- One part of the loop body of `prepareForeignKey`:
`strings.ToUpper(part[:1]) + part[1:]`.  Taking `part[:1]` of an empty part
panics in Go (index out of range); the panic is modeled as `none`. -/
def capitalizePart (p : String) : Option String :=
  match p.data with
  | [] => none
  | c :: rest => some (String.mk (asciiUpperChar c :: rest))

/-- The loop of `prepareForeignKey` over the parts of the split, building
the concatenation of the capitalized parts; `none` when any iteration panics. -/
def prepareForeignKeyLoop : List String → String → Option String
  | [], buffer => some buffer
  | p :: ps, buffer =>
    match capitalizePart p with
    | none => none
    | some cp => prepareForeignKeyLoop ps (buffer ++ cp)

/-- `prepareForeignKey(str)`: split on `_`, capitalize every part, join.
`none` models the Go panic on an empty part. -/
def prepareForeignKey (str : String) : Option String :=
  prepareForeignKeyLoop (goSplit str '_') ""

/- ===== Relation-path splitting in Connection.Get (src/sql.go 728-746) ===== -/

/-- The per-relation handling in `Get`'s relation loop: `childs` starts empty;
when the relation contains a dot the relation is split on `.`, the head
becomes the relation name and all remaining segments become `childs`
(`tmp_items[1:]`). -/
def splitRelation (relation : String) : String × List String :=
  if goContains relation '.' then
    match goSplit relation '.' with
    | [] => (relation, [])
    | h :: t => (h, t)
  else (relation, [])

/-- The options every loader builds for its child query (src/sql.go 113-117,
281-285, 484-488): `Relations` is set to the received `childs` slice when it
is non-nil and non-empty. -/
def loaderChildOptions (childs : Option (List String)) : Options :=
  match childs with
  | none => {}
  | some cs => if 0 < cs.length then { relations := cs } else {}

/- ===== SQL actions and oracles ===== -/

/-- One observable database interaction of an operation.  `query` and `exec`
are statements sent directly over the `*sql.DB` handle; `getCall` and
`getOneCall` are the read calls a loader makes on its child repository;
`updateCall` is `Delete`'s delegation to `Update`. -/
inductive DbAction where
  | query (sql : String) (args : List Value)
  | exec (sql : String) (args : List Value)
  | getCall (filters : GroupFilter) (opts : Options)
  | getOneCall (filters : GroupFilter) (opts : Options)
  | updateCall (filters : GroupFilter) (data : List (String × Value))

/-- The error value `godb.ErrNoDocumentsFound`, as its message. -/
def errNoDocumentsFound : String := "no documents found"

/- ===== Connection.Get: query building (src/sql.go 628-697) ===== -/

/-- The `LIMIT` / `OFFSET` tail of `Get`'s query: each keyword is appended
only when its option is positive. -/
def addLimitOffset (q : String) (o : Options) : String :=
  let q1 := if 0 < o.limit then q ++ " LIMIT " ++ showInt o.limit else q
  if 0 < o.offset then q1 ++ " OFFSET " ++ showInt o.offset else q1

/-- The statement-building phase of `Connection.Get`, from the soft-delete
rewrite up to (but not including) `QueryContext`: the projected columns, the
compiled `WHERE`, the order-column whitelist check, `ORDER BY`, `LIMIT` and
`OFFSET`.  `.error` is returned exactly where `Get` returns before issuing
any SQL. -/
def buildGetQuery (c : Connection) (filters : GroupFilter) (opts : Option Options) : Except String (String × List Value) :=
  let filters1 :=
    match c.softDelete with
    | some d => if d ≠ "" then prepareSoftDelete c.softDelete filters else filters
    | none => filters
  let cols :=
    match opts with
    | some o =>
      match o.columns with
      | some cs => joinComma cs
      | none => "*"
    | none => "*"
  let base := "SELECT " ++ cols ++ " FROM " ++ c.table
  let r := prepareFilters filters1 1
  let q1 := if r.1 ≠ "" then base ++ " WHERE " ++ r.1 else base
  let args := if r.1 ≠ "" then r.2.1 else []
  match opts with
  | none => .ok (q1, args)
  | some o =>
    if o.orderColumn ≠ "" then
      let orderDir := if goToUpper o.orderDir = "DESC" then "DESC" else "ASC"
      if (c.orderColumns.contains o.orderColumn) = false then
        .error ("invalid order column: " ++ o.orderColumn)
      else
        .ok (addLimitOffset (q1 ++ " ORDER BY " ++ o.orderColumn ++ " " ++ orderDir) o, args)
    else
      .ok (addLimitOffset q1 o, args)

/-- `Connection.Get` up to its row loop: either the order-column error with
no SQL issued, or the single `SELECT` round-trip whose rows come from the
`queryOracle` standing in for the database.  (The relation-hydration loop
that follows scanning is modeled separately on the loaders.) -/
def getRun (c : Connection) (filters : GroupFilter) (opts : Option Options)
    (queryOracle : String → List Value → Except String (List Entity)) :
    List DbAction × Except String (List Entity) :=
  match buildGetQuery c filters opts with
  | .error e => ([], .error e)
  | .ok qa => ([.query qa.1 qa.2], queryOracle qa.1 qa.2)

/-- The option mutation of `Connection.GetOne` (src/sql.go 751-758): a nil
options pointer is replaced by a fresh record with `Limit = 1`; otherwise
`Limit = 1` is written into the caller's record. -/
def getOnePrepareOptions (opts : Option Options) : Options :=
  match opts with
  | none => { limit := 1 }
  | some o => { o with limit := 1 }

/- ===== Connection.Create: payload mutation (src/sql.go 774-809) ===== -/

/-- The option defaulting of `Create`: nil options become a fresh record;
`PrimaryKey` defaults to `"id"`, `InsertPrimaryKey` and `TimestampsFields`
default to true. -/
def createDefaultOptions (opts : Option Options) : Options :=
  let o := opts.getD {}
  let o1 := if o.primaryKey = none then { o with primaryKey := some "id" } else o
  let o2 := if o1.insertPrimaryKey = none then { o1 with insertPrimaryKey := some true } else o1
  if o2.timestampsFields = none then { o2 with timestampsFields := some true } else o2

/-- The payload mutation of `Create` (src/sql.go 801-809): the generated
UUID is written under the primary-key column when `InsertPrimaryKey`, and
`created_at` / `updated_at` are stamped with `now` when `TimestampsFields`.
The mutation happens in place on the caller's map; this function is the
map's state afterwards. -/
def createPrepareData (data : List (String × Value)) (opts : Option Options)
    (newUuid : String) (now : Value) : List (String × Value) :=
  let o := createDefaultOptions opts
  let d1 :=
    if o.insertPrimaryKey = some true then
      mapSet data (o.primaryKey.getD "id") (Value.str newUuid)
    else data
  if o.timestampsFields = some true then
    mapSet (mapSet d1 "created_at" now) "updated_at" now
  else d1

/- ===== Connection.Update: payload mutation and SET clause (src/sql.go 911-968) ===== -/

/-- The payload mutation of `Update` (src/sql.go 917-920): `id` and
`created_at` are deleted from the caller's map and `updated_at` is stamped. -/
def updatePrepareData (data : List (String × Value)) (now : Value) : List (String × Value) :=
  mapSet (mapDel (mapDel data "id") "created_at") "updated_at" now

/-- The SET-clause loop of `Update` (src/sql.go 922-929): every entry of the
payload becomes `k = $i` with its value bound as the i-th argument; `items`
starts at 1.  There is no special case for any kind of value. -/
def buildSetParts : List (String × Value) → Int → List String × List Value × Int
  | [], items => ([], [], items)
  | (k, v) :: rest, items =>
    let r := buildSetParts rest (items + 1)
    ((k ++ " = $" ++ showInt items) :: r.1, v :: r.2.1, r.2.2)

/-- The SET clause `Update` builds after mutating the payload: the list of
`k = $i` parts and the bound values, in map order, starting at `$1`. -/
def updateSetClause (data : List (String × Value)) (now : Value) : List String × List Value × Int :=
  buildSetParts (updatePrepareData data now) 1

/- ===== Connection.Delete (src/sql.go 970-1009) ===== -/

/-- `Connection.Delete`: with a configured soft-delete column it calls
`Update(filters, {deleted_at: now})`, discards that call's result and returns
nil; otherwise it issues `DELETE FROM t [WHERE ...]` and maps zero affected
rows to `ErrNoDocumentsFound`.  `updateOracle` stands in for the inner
`Update` call and `execOracle` for `ExecContext` (returning the affected row
count).  The result is the issued actions and the returned error (`none` is
Go's nil). -/
def deleteRun (c : Connection) (filters : GroupFilter) (now : Value)
    (updateOracle : GroupFilter → List (String × Value) → Except String Entity)
    (execOracle : String → List Value → Except String Int) :
    List DbAction × Option String :=
  match c.softDelete with
  | some d =>
    if d ≠ "" then
      let payload := [("deleted_at", now)]
      let _ := updateOracle filters payload
      ([.updateCall filters payload], none)
    else deleteHard c filters execOracle
  | none => deleteHard c filters execOracle
where
  /-- The hard-delete path: `DELETE FROM t [WHERE ...]`, error on failure,
  `ErrNoDocumentsFound` on zero affected rows. -/
  deleteHard (c : Connection) (filters : GroupFilter)
      (execOracle : String → List Value → Except String Int) :
      List DbAction × Option String :=
    let r := prepareFilters filters 1
    let q :=
      if r.1 ≠ "" then "DELETE FROM " ++ c.table ++ " WHERE " ++ r.1
      else "DELETE FROM " ++ c.table
    let args := r.2.1
    match execOracle q args with
    | .error e => ([.exec q args], some e)
    | .ok numRows =>
      if numRows = 0 then ([.exec q args], some errNoDocumentsFound)
      else ([.exec q args], none)

/- ===== The three relation loaders (src/sql.go 81-542) ===== -/

/-- The parent-id collection loop shared by the loaders: `FieldByName` on
each parent; the first invalid field aborts with the loader's error. -/
def collectFieldValues (field : String) (errMsg : String) : List Entity → Except String (List Value)
  | [] => .ok []
  | p :: ps =>
    match p.fieldByName field with
    | none => .error (errMsg ++ field)
    | some v =>
      match collectFieldValues field errMsg ps with
      | .error e => .error e
      | .ok rest => .ok (v :: rest)

/-- `OnetoManyLoader` configuration (src/sql.go 43-48). -/
structure OnetoManyLoader where
  parentField : String
  childFkField : String
  containerField : String

/-- `OnetoOneLoader` configuration (src/sql.go 61-66). -/
structure OnetoOneLoader where
  parentField : String
  childFkField : String
  containerField : String

/-- `ManyToManyLoader` configuration (src/sql.go 50-59). -/
structure ManyToManyLoader where
  parentKey : String
  childKey : String
  pivoteParentKey : String
  pivoteChildKey : String
  pivoteTable : String
  containerField : String

/-- `OnetoManyLoader.Load` (src/sql.go 81-194) up to and including its one
child query: empty parents return immediately with no SQL; otherwise the
parent ids are collected, the `childFkField IN (parentIds)` filter is built
and `Repository.Get` (the `getOracle`) is called with the child options.
The reflective container-binding phase that follows issues no SQL and is
not modeled. -/
def onetoManyLoad (l : OnetoManyLoader)
    (getOracle : GroupFilter → Options → Except String (List Entity))
    (parentModels : List Entity) (childs : Option (List String)) :
    List DbAction × Option String :=
  if parentModels.length = 0 then ([], none)
  else
    match collectFieldValues l.parentField "invalid parent field: " parentModels with
    | .error e => ([], some e)
    | .ok parentIds =>
      let filters : GroupFilter :=
        { operator := "", filters := .cons (.multiple l.childFkField parentIds (some ComparatorIn)) .nil }
      let opts := loaderChildOptions childs
      match getOracle filters opts with
      | .error e => ([.getCall filters opts], some ("failed to get child models: " ++ e))
      | .ok _ => ([.getCall filters opts], none)

/-- The placeholder list of the pivot query: `$1, $2, ...`, one per parent
id, with `", "` before every index but the first (src/sql.go 227-234). -/
def pivotPlaceholders : Nat → Nat → String
  | 0, _ => ""
  | n + 1, i =>
    (if 0 < i then ", " else "") ++ "$" ++ showInt (Int.ofNat (i + 1)) ++ pivotPlaceholders n (i + 1)

/-- `ManyToManyLoader.Load` (src/sql.go 196-459) up to and including its
child query: empty parents return immediately with no SQL; otherwise the
pivot `SELECT` is issued over the raw handle (`pivotOracle` returns its
(parentId, childId) rows), the child ids are collected in row order and
`Repository.Get` is called with `childKey IN (childIds)` and the child
options.  The container-binding phase that follows issues no SQL and is not
modeled. -/
def manyToManyLoad (m : ManyToManyLoader)
    (pivotOracle : String → List Value → Except String (List (Value × Value)))
    (getOracle : GroupFilter → Options → Except String (List Entity))
    (parentModels : List Entity) (childs : Option (List String)) :
    List DbAction × Option String :=
  if parentModels.length = 0 then ([], none)
  else
    match collectFieldValues m.parentKey "invalid parent key field: " parentModels with
    | .error e => ([], some e)
    | .ok parentModelsIds =>
      let query := "SELECT " ++ m.pivoteParentKey ++ ", " ++ m.pivoteChildKey ++
        " FROM " ++ m.pivoteTable ++ " WHERE " ++ m.pivoteParentKey ++ " IN (" ++
        pivotPlaceholders parentModelsIds.length 0 ++ ")"
      match pivotOracle query parentModelsIds with
      | .error e => ([.query query parentModelsIds], some ("failed to query pivot table: " ++ e))
      | .ok rows =>
        let listAllChildIds := rows.map (fun r => r.2)
        let filtersForChildren : GroupFilter :=
          { operator := "", filters := .cons (.multiple m.childKey listAllChildIds (some ComparatorIn)) .nil }
        let opts := loaderChildOptions childs
        match getOracle filtersForChildren opts with
        | .error e =>
          ([.query query parentModelsIds, .getCall filtersForChildren opts],
            some ("failed to get child models: " ++ e))
        | .ok _ =>
          ([.query query parentModelsIds, .getCall filtersForChildren opts], none)

/-- `OnetoOneLoader.Load` (src/sql.go 461-542) up to and including its child
query: empty (or nil) parents return immediately with no SQL; otherwise the
first parent's `parentField` drives a `childFkField = parentId` filter and
`Repository.GetOne` (the `getOneOracle`) is called with the child options.
The container-assignment phase that follows issues no SQL and is not
modeled. -/
def onetoOneLoad (l : OnetoOneLoader)
    (getOneOracle : GroupFilter → Options → Except String Entity)
    (parentModel : List Entity) (childs : Option (List String)) :
    List DbAction × Option String :=
  if parentModel.length = 0 then ([], none)
  else
    match parentModel with
    | [] => ([], none)
    | p :: _ =>
      match p.fieldByName l.parentField with
      | none => ([], some ("invalid parent field: " ++ l.parentField))
      | some parentId =>
        let filterChild : GroupFilter :=
          { operator := "", filters := .cons (.single l.childFkField parentId none none) .nil }
        let opts := loaderChildOptions childs
        match getOneOracle filterChild opts with
        | .error e => ([.getOneCall filterChild opts], some ("failed to load child model: " ++ e))
        | .ok _ => ([.getOneCall filterChild opts], none)

/- ===== Placeholder extraction: the $n tokens of a fragment ===== -/

/-- The scanner behind `phExtract`, with explicit fuel so that it is
structurally recursive (the fuel is the length of the scanned list). -/
def phExtractAux : Nat → List Char → List (List Char)
  | 0, _ => []
  | _ + 1, [] => []
  | fuel + 1, c :: rest =>
    if c = '$' then
      let ds := rest.takeWhile Char.isDigit
      if ds.isEmpty then phExtractAux fuel rest
      else ds :: phExtractAux fuel (rest.dropWhile Char.isDigit)
    else phExtractAux fuel rest

/-- The `$n` placeholder tokens of a SQL fragment, left to right: each `$`
followed by a maximal non-empty digit run yields that digit run. -/
def phExtract (l : List Char) : List (List Char) :=
  phExtractAux l.length l

/-- The digit runs of the dense placeholder block `$n, $n+1, ..., $n+k-1`. -/
def phBlock : Int → Nat → List (List Char)
  | _, 0 => []
  | n, k + 1 => decimalDigits n.toNat :: phBlock (n + 1) k

/-- Whether a string is free of the placeholder marker `$`. -/
def noDollar (s : String) : Bool :=
  s.data.all (fun c => c ≠ '$')

mutual
/-- All keys, comparators and group operators of the filter are `$`-free
(they are column names and SQL keywords in every intended use). -/
def cleanFilter : Filter → Bool
  | .single key _ cmp _ => noDollar key && noDollar (cmp.getD "=")
  | .multiple key _ cmp => noDollar key && noDollar (cmp.getD "IN")
  | .group op fs => noDollar op && cleanFilterList fs

/-- `cleanFilter` over a filter slice. -/
def cleanFilterList : FilterList → Bool
  | .nil => true
  | .cons f fs => cleanFilter f && cleanFilterList fs
end

/-- `cleanFilter` over a whole group. -/
def cleanGroup (g : GroupFilter) : Bool :=
  noDollar g.operator && cleanFilterList g.filters

/-- Concrete fixture: the filter group `{status = "active"}`. -/
def statusGroup : GroupFilter :=
  ⟨"", .cons (.single "status" (.str "active") none none) .nil⟩

/-- Concrete fixture: the filter group `status = "active" AND id IN (1, 2)`. -/
def statusInGroup : GroupFilter :=
  ⟨"", .cons (.single "status" (.str "active") none none)
    (.cons (.multiple "id" [.int 1, .int 2] (some "IN")) .nil)⟩

/- ===== Helper lemmas: decimal digits ===== -/

theorem toDigitsCore_append (fuel : Nat) : ∀ (n : Nat) (ds : List Char),
    Nat.toDigitsCore 10 fuel n ds = Nat.toDigitsCore 10 fuel n [] ++ ds := by
  induction fuel with
  | zero => intro n ds; simp [Nat.toDigitsCore]
  | succ fuel ih =>
    intro n ds
    simp only [Nat.toDigitsCore]
    split
    · simp
    · rw [ih (n / 10) (Nat.digitChar (n % 10) :: ds), ih (n / 10) [Nat.digitChar (n % 10)]]
      simp

theorem digitChar_isDigit (d : Nat) (h : d < 10) : (Nat.digitChar d).isDigit = true := by
  interval_cases d <;> decide

theorem toDigitsCore_all_digit (fuel : Nat) : ∀ (n : Nat) (ds : List Char),
    (∀ c ∈ ds, c.isDigit = true) →
    ∀ c ∈ Nat.toDigitsCore 10 fuel n ds, c.isDigit = true := by
  induction fuel with
  | zero => intro n ds hds; simpa [Nat.toDigitsCore] using hds
  | succ fuel ih =>
    intro n ds hds
    simp only [Nat.toDigitsCore]
    have hd : (Nat.digitChar (n % 10)).isDigit = true :=
      digitChar_isDigit _ (Nat.mod_lt _ (by omega))
    split
    · intro c hc
      rcases List.mem_cons.mp hc with h | h
      · subst h; exact hd
      · exact hds c h
    · refine ih (n / 10) _ ?_
      intro c hc
      rcases List.mem_cons.mp hc with h | h
      · subst h; exact hd
      · exact hds c h

theorem decimalDigits_all_digit (n : Nat) : ∀ c ∈ decimalDigits n, c.isDigit = true :=
  toDigitsCore_all_digit (n + 1) n [] (by simp)

theorem decimalDigits_ne_nil (n : Nat) : decimalDigits n ≠ [] := by
  unfold decimalDigits Nat.toDigits
  simp only [Nat.toDigitsCore]
  split
  · simp
  · rw [toDigitsCore_append]
    simp

theorem decimalDigits_no_dollar (n : Nat) : '$' ∉ decimalDigits n := by
  intro h
  have := decimalDigits_all_digit n '$' h
  simp [Char.isDigit] at this

/- ===== Helper lemmas: takeWhile / dropWhile ===== -/

theorem length_dropWhileLe (p : Char → Bool) (l : List Char) :
    (l.dropWhile p).length ≤ l.length := by
  induction l with
  | nil => simp [List.dropWhile]
  | cons c l ih =>
    simp only [List.dropWhile]
    split
    · simp only [List.length_cons]; omega
    · simp

theorem takeWhile_head_false (p : Char → Bool) (t : List Char)
    (ht : ∀ c, t.head? = some c → p c = false) : t.takeWhile p = [] := by
  cases t with
  | nil => rfl
  | cons c t => simp [List.takeWhile, ht c rfl]

theorem dropWhile_head_false (p : Char → Bool) (t : List Char)
    (ht : ∀ c, t.head? = some c → p c = false) : t.dropWhile p = t := by
  cases t with
  | nil => rfl
  | cons c t => simp [List.dropWhile, ht c rfl]

theorem takeWhile_cons_eq (p : Char → Bool) (c : Char) (l : List Char) :
    (c :: l).takeWhile p = if p c then c :: l.takeWhile p else [] := by
  simp only [List.takeWhile]
  split <;> rename_i h <;> simp [h]

theorem dropWhile_cons_eq (p : Char → Bool) (c : Char) (l : List Char) :
    (c :: l).dropWhile p = if p c then l.dropWhile p else c :: l := by
  simp only [List.dropWhile]
  split <;> rename_i h <;> simp [h]

theorem takeWhile_append_all (p : Char → Bool) (t : List Char) : ∀ (l : List Char),
    (∀ c ∈ l, p c = true) → (l ++ t).takeWhile p = l ++ t.takeWhile p := by
  intro l
  induction l with
  | nil => simp
  | cons c l ih =>
    intro h
    have hc : p c = true := h c (by simp)
    rw [List.cons_append, takeWhile_cons_eq, if_pos hc]
    rw [ih (fun d hd => h d (by simp [hd]))]
    simp

theorem dropWhile_append_all (p : Char → Bool) (t : List Char) : ∀ (l : List Char),
    (∀ c ∈ l, p c = true) → (l ++ t).dropWhile p = t.dropWhile p := by
  intro l
  induction l with
  | nil => simp
  | cons c l ih =>
    intro h
    have hc : p c = true := h c (by simp)
    rw [List.cons_append, dropWhile_cons_eq, if_pos hc]
    exact ih (fun d hd => h d (by simp [hd]))

theorem takeWhile_append_head_false (p : Char → Bool) (b : List Char)
    (hb : ∀ c, b.head? = some c → p c = false) : ∀ (a : List Char),
    (a ++ b).takeWhile p = a.takeWhile p ∧ (a ++ b).dropWhile p = a.dropWhile p ++ b := by
  intro a
  induction a with
  | nil =>
    constructor
    · simp [takeWhile_head_false p b hb]
    · simp [dropWhile_head_false p b hb]
  | cons d a ih =>
    by_cases hd : p d = true
    · rw [List.cons_append, takeWhile_cons_eq, takeWhile_cons_eq,
        dropWhile_cons_eq, dropWhile_cons_eq, if_pos hd, if_pos hd, if_pos hd, if_pos hd]
      exact ⟨by rw [ih.1], by rw [ih.2]⟩
    · rw [List.cons_append, takeWhile_cons_eq, takeWhile_cons_eq,
        dropWhile_cons_eq, dropWhile_cons_eq, if_neg hd, if_neg hd, if_neg hd, if_neg hd]
      exact ⟨rfl, rfl⟩

/- ===== Helper lemmas: phExtract ===== -/

theorem phExtractAux_nil (fuel : Nat) : phExtractAux fuel [] = [] := by
  cases fuel <;> rfl

theorem phExtractAux_fuel (f1 : Nat) : ∀ (l : List Char) (f2 : Nat),
    l.length ≤ f1 → l.length ≤ f2 → phExtractAux f1 l = phExtractAux f2 l := by
  induction f1 with
  | zero =>
    intro l f2 h1 _
    have hl : l = [] := List.length_eq_zero.mp (Nat.le_zero.mp h1)
    subst hl
    rw [phExtractAux_nil, phExtractAux_nil]
  | succ f1 ih =>
    intro l f2 h1 h2
    cases l with
    | nil => rw [phExtractAux_nil, phExtractAux_nil]
    | cons c rest =>
      cases f2 with
      | zero => simp at h2
      | succ f2 =>
        have hr1 : rest.length ≤ f1 := by simpa using h1
        have hr2 : rest.length ≤ f2 := by simpa using h2
        simp only [phExtractAux]
        split
        · split
          · exact ih rest f2 hr1 hr2
          · have hd1 : (rest.dropWhile Char.isDigit).length ≤ f1 :=
              le_trans (length_dropWhileLe _ _) hr1
            have hd2 : (rest.dropWhile Char.isDigit).length ≤ f2 :=
              le_trans (length_dropWhileLe _ _) hr2
            rw [ih (rest.dropWhile Char.isDigit) f2 hd1 hd2]
        · exact ih rest f2 hr1 hr2

theorem phExtract_cons_not_dollar (c : Char) (rest : List Char) (hc : c ≠ '$') :
    phExtract (c :: rest) = phExtract rest := by
  unfold phExtract
  simp only [List.length_cons, phExtractAux, if_neg hc]

theorem phExtract_nil : phExtract [] = [] := rfl

theorem phExtract_cons_dollar (rest : List Char) :
    phExtract ('$' :: rest) =
      if (rest.takeWhile Char.isDigit).isEmpty then phExtract rest
      else rest.takeWhile Char.isDigit :: phExtract (rest.dropWhile Char.isDigit) := by
  have base : phExtract ('$' :: rest) =
      if (rest.takeWhile Char.isDigit).isEmpty then phExtractAux rest.length rest
      else rest.takeWhile Char.isDigit :: phExtractAux rest.length (rest.dropWhile Char.isDigit) := by
    rfl
  rw [base]
  by_cases hds : (rest.takeWhile Char.isDigit).isEmpty = true
  · rw [if_pos hds, if_pos hds]
    rfl
  · rw [if_neg hds, if_neg hds]
    rw [phExtractAux_fuel rest.length (rest.dropWhile Char.isDigit)
      (rest.dropWhile Char.isDigit).length (length_dropWhileLe _ _) (le_refl _)]
    rfl

theorem phExtract_append_no_dollar (b : List Char) : ∀ (a : List Char), '$' ∉ a →
    phExtract (a ++ b) = phExtract b := by
  intro a
  induction a with
  | nil => simp
  | cons c a ih =>
    intro h
    have hc : c ≠ '$' := by
      intro e
      exact h (by simp [e])
    rw [List.cons_append, phExtract_cons_not_dollar c _ hc]
    exact ih (fun hx => h (by simp [hx]))

theorem phExtract_no_dollar (a : List Char) (h : '$' ∉ a) : phExtract a = [] := by
  have := phExtract_append_no_dollar [] a h
  simpa using this

theorem phExtract_append_split (b : List Char)
    (hb : ∀ c, b.head? = some c → c.isDigit = false) : ∀ (n : Nat) (a : List Char),
    a.length ≤ n → phExtract (a ++ b) = phExtract a ++ phExtract b := by
  intro n
  induction n with
  | zero =>
    intro a ha
    have hl : a = [] := List.length_eq_zero.mp (Nat.le_zero.mp ha)
    subst hl
    simp [phExtract_nil]
  | succ n ih =>
    intro a ha
    cases a with
    | nil => simp [phExtract_nil]
    | cons c rest =>
      have hr : rest.length ≤ n := by simpa using ha
      by_cases hc : c = '$'
      · subst hc
        have htw := (takeWhile_append_head_false Char.isDigit b hb rest).1
        have hdw := (takeWhile_append_head_false Char.isDigit b hb rest).2
        rw [List.cons_append, phExtract_cons_dollar, phExtract_cons_dollar, htw, hdw]
        split
        · exact ih rest hr
        · rw [ih (rest.dropWhile Char.isDigit) (le_trans (length_dropWhileLe _ _) hr)]
          simp
      · rw [List.cons_append, phExtract_cons_not_dollar c _ hc,
          phExtract_cons_not_dollar c _ hc]
        exact ih rest hr

theorem phExtract_placeholder (m : Nat) (t : List Char)
    (ht : ∀ c, t.head? = some c → c.isDigit = false) :
    phExtract ('$' :: (decimalDigits m ++ t)) = decimalDigits m :: phExtract t := by
  have h1 : (decimalDigits m ++ t).takeWhile Char.isDigit = decimalDigits m := by
    rw [takeWhile_append_all Char.isDigit t (decimalDigits m) (decimalDigits_all_digit m),
      takeWhile_head_false Char.isDigit t ht]
    simp
  have h2 : (decimalDigits m ++ t).dropWhile Char.isDigit = t := by
    rw [dropWhile_append_all Char.isDigit t (decimalDigits m) (decimalDigits_all_digit m),
      dropWhile_head_false Char.isDigit t ht]
  rw [phExtract_cons_dollar, h1, h2]
  rw [if_neg (by simp [List.isEmpty_iff, decimalDigits_ne_nil m])]

/- ===== Helper lemmas: phBlock ===== -/

theorem phBlock_length (k : Nat) : ∀ (n : Int), (phBlock n k).length = k := by
  induction k with
  | zero => intro n; rfl
  | succ k ih => intro n; simp [phBlock, ih]

theorem phBlock_append (k1 : Nat) : ∀ (n : Int) (k2 : Nat),
    phBlock n k1 ++ phBlock (n + k1) k2 = phBlock n (k1 + k2) := by
  induction k1 with
  | zero => intro n k2; simp [phBlock]
  | succ k1 ih =>
    intro n k2
    have he : n + ((k1 : Int) + 1) = (n + 1) + k1 := by ring
    have hk : k1 + 1 + k2 = (k1 + k2) + 1 := by omega
    simp only [phBlock, List.cons_append, hk]
    rw [show ((k1 + 1 : Nat) : Int) = (k1 : Int) + 1 by push_cast; ring, he, ih (n + 1) k2]

/- ===== Helper lemmas: strings ===== -/

theorem string_data_append (s t : String) : (s ++ t).data = s.data ++ t.data :=
  String.data_append s t

theorem string_mk_data (l : List Char) : (String.mk l).data = l := rfl

theorem string_ne_empty_of_data (s : String) (h : s.data ≠ []) : s ≠ "" := by
  intro e
  subst e
  exact h rfl

theorem showInt_data (c : Int) (hc : 1 ≤ c) : (showInt c).data = decimalDigits c.toNat := by
  unfold showInt
  rw [if_neg (by omega)]

theorem noDollar_mem (s : String) (h : noDollar s = true) : '$' ∉ s.data := by
  intro hm
  have := List.all_eq_true.mp h '$' hm
  simp at this

/- ===== Helper lemmas: string emptiness ===== -/

theorem string_eq_empty_iff (s : String) : s = "" ↔ s.data = [] := by
  constructor
  · intro h
    subst h
    rfl
  · intro h
    cases s with
    | mk l =>
      have hl : l = [] := h
      subst hl
      rfl

theorem string_append_right_ne (s t : String) (h : t ≠ "") : s ++ t ≠ "" := by
  intro e
  rw [string_eq_empty_iff, string_data_append, List.append_eq_nil] at e
  exact h ((string_eq_empty_iff t).mpr e.2)

theorem showInt_ne_empty (c : Int) (hc : 1 ≤ c) : showInt c ≠ "" := by
  intro e
  rw [string_eq_empty_iff, showInt_data c hc] at e
  exact decimalDigits_ne_nil _ e

/- ===== The counter and value-list bookkeeping of prepareFilters ===== -/

theorem multiValuesLoop_basic (values : List Value) : ∀ (c : Int) (sub : Nat),
    (multiValuesLoop values c sub).2.1 = values ∧
    (multiValuesLoop values c sub).2.2 = c + values.length := by
  induction values with
  | nil => intro c sub; simp [multiValuesLoop]
  | cons v vs ih =>
    intro c sub
    have h := ih (c + 1) (sub + 1)
    refine ⟨?_, ?_⟩
    · show v :: (multiValuesLoop vs (c + 1) (sub + 1)).2.1 = v :: vs
      rw [h.1]
    · show (multiValuesLoop vs (c + 1) (sub + 1)).2.2 = c + ((vs.length + 1 : Nat) : Int)
      rw [h.2]
      push_cast
      ring

mutual
/-- For one filter element at counter `c ≥ 1`: the returned counter is `c`
plus the number of collected values, and an empty fragment collects none. -/
theorem compileOne_counter (f : Filter) (c : Int) (hc : 1 ≤ c) :
    (compileOne f c).2.2.1 = c + (compileOne f c).2.1.length ∧
    ((compileOne f c).1 = "" → (compileOne f c).2.1 = []) := by
  cases f with
  | single key value cmp op =>
    simp only [compileOne]
    by_cases h1 : (cmp.getD "=") ≠ ComparatorIsNull ∧ (cmp.getD "=") ≠ ComparatorIsNotNull ∧
        (cmp.getD "=") ≠ ComparatorIn ∧ (cmp.getD "=") ≠ ComparatorNotIn
    · rw [if_pos h1]
      refine ⟨by simp, ?_⟩
      intro he
      exact absurd he (string_append_right_ne _ _ (showInt_ne_empty c hc))
    · rw [if_neg h1]
      by_cases h2 : (cmp.getD "=") = ComparatorIn ∨ (cmp.getD "=") = ComparatorNotIn
      · rw [if_pos h2]
        simp
      · rw [if_neg h2]
        simp
  | multiple key values cmp =>
    simp only [compileOne]
    by_cases h1 : (cmp.getD "IN") = ComparatorIn ∨ (cmp.getD "IN") = ComparatorNotIn
    · rw [if_pos h1]
      have hm := multiValuesLoop_basic values c 1
      refine ⟨by simp [hm.1, hm.2], ?_⟩
      intro he
      exact absurd he (string_append_right_ne _ _ (by decide))
    · rw [if_neg h1]
      simp
  | group op fs =>
    simp only [compileOne]
    have hc0 : (if c ≤ 0 then 1 else c) = c := if_neg (by omega)
    rw [hc0]
    obtain ⟨extra, hvals, hcount, hempty⟩ :=
      prepareFiltersCore_counter fs op "" [] c [] hc
    by_cases hs : (prepareFiltersCore op fs "" [] c []).1 = ""
    · rw [if_pos hs]
      have hx : extra = [] := (hempty hs).2
      refine ⟨?_, fun _ => rfl⟩
      show (prepareFiltersCore op fs "" [] c []).2.2.1 = c + ((List.length ([] : List Value) : Nat) : Int)
      rw [hcount, hx]
    · rw [if_neg hs]
      refine ⟨?_, ?_⟩
      · show (prepareFiltersCore op fs "" [] c []).2.2.1 =
          c + (((prepareFiltersCore op fs "" [] c []).2.1.length : Nat) : Int)
        rw [hcount, hvals]
        simp
      · intro he
        exact absurd he (string_append_right_ne _ _ (by decide))

/-- For the loop over a filter slice at counter `c ≥ 1`: the value list only
grows, the returned counter is `c` plus the number of values added, and an
empty final builder means nothing was added. -/
theorem prepareFiltersCore_counter (fs : FilterList) (op : String) (qb : String)
    (vals : List Value) (c : Int) (logs : List String) (hc : 1 ≤ c) :
    ∃ extra : List Value,
      (prepareFiltersCore op fs qb vals c logs).2.1 = vals ++ extra ∧
      (prepareFiltersCore op fs qb vals c logs).2.2.1 = c + extra.length ∧
      ((prepareFiltersCore op fs qb vals c logs).1 = "" → qb = "" ∧ extra = []) := by
  cases fs with
  | nil =>
    refine ⟨[], by simp [prepareFiltersCore], by simp [prepareFiltersCore], ?_⟩
    intro h
    exact ⟨h, rfl⟩
  | cons f fs =>
    obtain ⟨h1, h2⟩ := compileOne_counter f c hc
    have hc' : 1 ≤ (compileOne f c).2.2.1 := by
      rw [h1]
      omega
    by_cases hf : (compileOne f c).1 = ""
    · have hfv : (compileOne f c).2.1 = [] := h2 hf
      have hfc : (compileOne f c).2.2.1 = c := by
        rw [h1, hfv]
        simp
      obtain ⟨extra, hv, hk, he⟩ :=
        prepareFiltersCore_counter fs op qb vals (compileOne f c).2.2.1
          (logs ++ (compileOne f c).2.2.2) hc'
      refine ⟨extra, ?_, ?_, ?_⟩
      · simpa [prepareFiltersCore, hf] using hv
      · have hk2 : (prepareFiltersCore op fs qb vals (compileOne f c).2.2.1
            (logs ++ (compileOne f c).2.2.2)).2.2.1 = c + (extra.length : Int) := by
          rw [hk, hfc]
        simpa [prepareFiltersCore, hf] using hk2
      · intro hq
        have hq' : (prepareFiltersCore op fs qb vals (compileOne f c).2.2.1
            (logs ++ (compileOne f c).2.2.2)).1 = "" := by
          simpa [prepareFiltersCore, hf] using hq
        exact he hq'
    · obtain ⟨extra, hv, hk, he⟩ :=
        prepareFiltersCore_counter fs op
          (if qb = "" then (compileOne f c).1
            else qb ++ " " ++ (if op = "" then OperatorAnd else op) ++ " " ++ (compileOne f c).1)
          (vals ++ (compileOne f c).2.1) (compileOne f c).2.2.1
          (logs ++ (compileOne f c).2.2.2) hc'
      refine ⟨(compileOne f c).2.1 ++ extra, ?_, ?_, ?_⟩
      · rw [← List.append_assoc]
        simpa [prepareFiltersCore, hf] using hv
      · have hk2 : (prepareFiltersCore op fs
            (if qb = "" then (compileOne f c).1
              else qb ++ " " ++ (if op = "" then OperatorAnd else op) ++ " " ++ (compileOne f c).1)
            (vals ++ (compileOne f c).2.1) (compileOne f c).2.2.1
            (logs ++ (compileOne f c).2.2.2)).2.2.1 =
            c + (((compileOne f c).2.1 ++ extra).length : Int) := by
          rw [hk, h1]
          simp only [List.length_append]
          push_cast
          ring
        simpa [prepareFiltersCore, hf] using hk2
      · intro hq
        have hq' : (prepareFiltersCore op fs
            (if qb = "" then (compileOne f c).1
              else qb ++ " " ++ (if op = "" then OperatorAnd else op) ++ " " ++ (compileOne f c).1)
            (vals ++ (compileOne f c).2.1) (compileOne f c).2.2.1
            (logs ++ (compileOne f c).2.2.2)).1 = "" := by
          simpa [prepareFiltersCore, hf] using hq
        have hqe := (he hq').1
        by_cases hqb : qb = ""
        · rw [if_pos hqb] at hqe
          exact absurd hqe hf
        · rw [if_neg hqb] at hqe
          exact absurd hqe (string_append_right_ne _ _ hf)
end

/- ===== Data of the string literals the compiler writes ===== -/

theorem data_space : (" " : String).data = [' '] := rfl

theorem data_space_dollar : (" $" : String).data = [' ', '$'] := rfl

theorem data_space_open : (" (" : String).data = [' ', '('] := rfl

theorem data_close : (")" : String).data = [')'] := rfl

theorem data_open : ("(" : String).data = ['('] := rfl

theorem data_dollar : ("$" : String).data = ['$'] := rfl

theorem data_comma_space : (", " : String).data = [',', ' '] := rfl

theorem data_empty : ("" : String).data = [] := rfl

/- ===== phExtract over the fragment shapes the compiler produces ===== -/

theorem phExtract_skip_chunk (l : List Char) (hl : '$' ∉ l) (t : List Char) :
    phExtract (l ++ t) = phExtract t :=
  phExtract_append_no_dollar t l hl

theorem phExtract_skip_char (c : Char) (hc : c ≠ '$') (t : List Char) :
    phExtract (c :: t) = phExtract t :=
  phExtract_cons_not_dollar c t hc

theorem phExtract_dollar_digits (m : Nat) :
    phExtract ('$' :: decimalDigits m) = [decimalDigits m] := by
  have h := phExtract_placeholder m [] (by intro ch hh; simp at hh)
  simpa [phExtract_nil] using h

theorem phExtract_append_close (inner : List Char) :
    phExtract (inner ++ [')']) = phExtract inner := by
  rw [phExtract_append_split [')']
    (by
      intro ch hh
      simp at hh
      subst hh
      decide) inner.length inner (le_refl _)]
  rw [phExtract_no_dollar [')'] (by decide)]
  simp

/- ===== Extraction through the multi-value loop ===== -/

theorem multiValuesLoop_extract (values : List Value) : ∀ (c : Int) (sub : Nat), 1 ≤ c →
    phExtract (multiValuesLoop values c sub).1.data = phBlock c values.length ∧
    (values = [] → (multiValuesLoop values c sub).1 = "") ∧
    (values ≠ [] → ∀ ch, (multiValuesLoop values c sub).1.data.head? = some ch →
      ch.isDigit = false) := by
  induction values with
  | nil =>
    intro c sub hc
    refine ⟨by simp [multiValuesLoop, data_empty, phExtract_nil, phBlock], fun _ => rfl, ?_⟩
    intro h
    exact absurd rfl h
  | cons v vs ih =>
    intro c sub hc
    have hrec := ih (c + 1) (sub + 1) (by omega)
    have hfrag : (multiValuesLoop (v :: vs) c sub).1 =
        ((if 1 < sub then ", " else "") ++ "$" ++ showInt c) ++ (multiValuesLoop vs (c + 1) (sub + 1)).1 := rfl
    have ht : ∀ ch, (multiValuesLoop vs (c + 1) (sub + 1)).1.data.head? = some ch →
        ch.isDigit = false := by
      intro ch hh
      cases vs with
      | nil =>
        rw [hrec.2.1 rfl] at hh
        simp [data_empty] at hh
      | cons w ws =>
        exact hrec.2.2 (by simp) ch hh
    have hdata : (multiValuesLoop (v :: vs) c sub).1.data =
        (if 1 < sub then ", " else "").data ++
          ('$' :: (decimalDigits c.toNat ++ (multiValuesLoop vs (c + 1) (sub + 1)).1.data)) := by
      rw [hfrag]
      simp [string_data_append, data_dollar, showInt_data c hc]
    refine ⟨?_, fun h => absurd h (List.cons_ne_nil v vs), ?_⟩
    · rw [hdata, phExtract_skip_chunk _ ?hnd _, phExtract_placeholder _ _ ht, hrec.1]
      · rfl
      case hnd =>
        by_cases hs : 1 < sub
        · rw [if_pos hs, data_comma_space]
          decide
        · rw [if_neg hs, data_empty]
          simp
    · intro _ ch hh
      rw [hdata] at hh
      by_cases hs : 1 < sub
      · rw [if_pos hs, data_comma_space] at hh
        have : ch = ',' := by simpa using hh.symm
        subst this
        decide
      · rw [if_neg hs, data_empty] at hh
        have : ch = '$' := by simpa using hh.symm
        subst this
        decide

/- ===== The dense-placeholder invariant of prepareFilters ===== -/

mutual
/-- For one clean filter element at counter `c ≥ 1`: the placeholder tokens
of its fragment are exactly the dense block starting at `c`, one per
collected value. -/
theorem compileOne_extract (f : Filter) (c : Int) (hc : 1 ≤ c) (hf : cleanFilter f = true) :
    phExtract (compileOne f c).1.data = phBlock c (compileOne f c).2.1.length := by
  cases f with
  | single key value cmp op =>
    have hf' : noDollar key = true ∧ noDollar (cmp.getD "=") = true := by
      simpa [cleanFilter, Bool.and_eq_true] using hf
    obtain ⟨hk, hcmp⟩ := hf'
    simp only [compileOne]
    by_cases h1 : (cmp.getD "=") ≠ ComparatorIsNull ∧ (cmp.getD "=") ≠ ComparatorIsNotNull ∧
        (cmp.getD "=") ≠ ComparatorIn ∧ (cmp.getD "=") ≠ ComparatorNotIn
    · rw [if_pos h1]
      have hdata : (key ++ " " ++ (cmp.getD "=") ++ " $" ++ showInt c).data =
          key.data ++ (' ' :: ((cmp.getD "=").data ++ (' ' :: ('$' :: decimalDigits c.toNat)))) := by
        simp [string_data_append, data_space, data_space_dollar, showInt_data c hc]
      show phExtract (key ++ " " ++ (cmp.getD "=") ++ " $" ++ showInt c).data =
        phBlock c (List.length [value])
      rw [hdata, phExtract_skip_chunk key.data (noDollar_mem _ hk) _,
        phExtract_skip_char ' ' (by decide) _,
        phExtract_skip_chunk ((cmp.getD "=")).data (noDollar_mem _ hcmp) _,
        phExtract_skip_char ' ' (by decide) _,
        phExtract_dollar_digits]
      simp [phBlock]
    · rw [if_neg h1]
      by_cases h2 : (cmp.getD "=") = ComparatorIn ∨ (cmp.getD "=") = ComparatorNotIn
      · rw [if_pos h2]
        simp [data_empty, phExtract_nil, phBlock]
      · rw [if_neg h2]
        show phExtract (key ++ " " ++ (cmp.getD "=")).data = phBlock c (List.length ([] : List Value))
        have hnd : '$' ∉ (key ++ " " ++ (cmp.getD "=")).data := by
          rw [string_data_append, string_data_append, data_space]
          intro hm
          rcases List.mem_append.mp hm with hm1 | hm2
          · rcases List.mem_append.mp hm1 with h | h
            · exact noDollar_mem _ hk h
            · simp at h
          · exact noDollar_mem _ hcmp hm2
        rw [phExtract_no_dollar _ hnd]
        simp [phBlock]
  | multiple key values cmp =>
    have hf' : noDollar key = true ∧ noDollar (cmp.getD "IN") = true := by
      simpa [cleanFilter, Bool.and_eq_true] using hf
    obtain ⟨hk, hcmp⟩ := hf'
    simp only [compileOne]
    by_cases h1 : (cmp.getD "IN") = ComparatorIn ∨ (cmp.getD "IN") = ComparatorNotIn
    · rw [if_pos h1]
      have hdata : (key ++ " " ++ (cmp.getD "IN") ++ " (" ++ (multiValuesLoop values c 1).1 ++ ")").data =
          key.data ++ (' ' :: ((cmp.getD "IN").data ++
            (' ' :: ('(' :: ((multiValuesLoop values c 1).1.data ++ [')']))))) := by
        simp [string_data_append, data_space, data_space_open, data_close]
      show phExtract (key ++ " " ++ (cmp.getD "IN") ++ " (" ++ (multiValuesLoop values c 1).1 ++ ")").data =
        phBlock c (multiValuesLoop values c 1).2.1.length
      rw [hdata, phExtract_skip_chunk key.data (noDollar_mem _ hk) _,
        phExtract_skip_char ' ' (by decide) _,
        phExtract_skip_chunk ((cmp.getD "IN")).data (noDollar_mem _ hcmp) _,
        phExtract_skip_char ' ' (by decide) _,
        phExtract_skip_char '(' (by decide) _,
        phExtract_append_close,
        (multiValuesLoop_extract values c 1 hc).1,
        (multiValuesLoop_basic values c 1).1]
    · rw [if_neg h1]
      simp [data_empty, phExtract_nil, phBlock]
  | group op fs =>
    have hf' : noDollar op = true ∧ cleanFilterList fs = true := by
      simpa [cleanFilter, Bool.and_eq_true] using hf
    obtain ⟨hop, hfs⟩ := hf'
    simp only [compileOne]
    have hc0 : (if c ≤ 0 then 1 else c) = c := if_neg (by omega)
    rw [hc0]
    by_cases hs : (prepareFiltersCore op fs "" [] c []).1 = ""
    · rw [if_pos hs]
      simp [data_empty, phExtract_nil, phBlock]
    · rw [if_neg hs]
      obtain ⟨extra, hvals, _, _⟩ := prepareFiltersCore_counter fs op "" [] c [] hc
      have hvals' : (prepareFiltersCore op fs "" [] c []).2.1 = [] ++ extra := by
        simpa using hvals
      have hrec := prepareFiltersCore_extract fs op "" [] c [] hc hfs hop extra hvals'
      have hdata : ("(" ++ (prepareFiltersCore op fs "" [] c []).1 ++ ")").data =
          '(' :: ((prepareFiltersCore op fs "" [] c []).1.data ++ [')']) := by
        simp [string_data_append, data_open, data_close]
      show phExtract ("(" ++ (prepareFiltersCore op fs "" [] c []).1 ++ ")").data =
        phBlock c (prepareFiltersCore op fs "" [] c []).2.1.length
      rw [hdata, phExtract_skip_char '(' (by decide) _, phExtract_append_close, hrec, hvals]
      simp [data_empty, phExtract_nil]

/-- For the loop over a clean filter slice at counter `c ≥ 1`: the fragment's
placeholder tokens are those of the incoming builder followed by the dense
block starting at `c`, one per value the loop adds. -/
theorem prepareFiltersCore_extract (fs : FilterList) (op : String) (qb : String)
    (vals : List Value) (c : Int) (logs : List String) (hc : 1 ≤ c)
    (hfs : cleanFilterList fs = true) (hop : noDollar op = true) :
    ∀ extra : List Value, (prepareFiltersCore op fs qb vals c logs).2.1 = vals ++ extra →
    phExtract (prepareFiltersCore op fs qb vals c logs).1.data =
      phExtract qb.data ++ phBlock c extra.length := by
  cases fs with
  | nil =>
    intro extra h
    have hx : extra = [] := by
      have : vals ++ ([] : List Value) = vals ++ extra := by
        simpa [prepareFiltersCore] using h
      exact (List.append_cancel_left this).symm
    subst hx
    simp [prepareFiltersCore, phBlock]
  | cons f fs =>
    intro extra h
    have hfs' : cleanFilter f = true ∧ cleanFilterList fs = true := by
      simpa [cleanFilterList, Bool.and_eq_true] using hfs
    obtain ⟨hf1, hfs2⟩ := hfs'
    obtain ⟨h1, h2⟩ := compileOne_counter f c hc
    have hc' : 1 ≤ (compileOne f c).2.2.1 := by
      rw [h1]
      omega
    by_cases hfe : (compileOne f c).1 = ""
    · have hfv : (compileOne f c).2.1 = [] := h2 hfe
      have hfc : (compileOne f c).2.2.1 = c := by
        rw [h1, hfv]
        simp
      have hgoal : prepareFiltersCore op (FilterList.cons f fs) qb vals c logs =
          prepareFiltersCore op fs qb vals (compileOne f c).2.2.1
            (logs ++ (compileOne f c).2.2.2) := by
        simp [prepareFiltersCore, hfe]
      rw [hgoal] at h ⊢
      have hrec := prepareFiltersCore_extract fs op qb vals (compileOne f c).2.2.1
        (logs ++ (compileOne f c).2.2.2) hc' hfs2 hop extra h
      rw [hrec, hfc]
    · have hgoal : prepareFiltersCore op (FilterList.cons f fs) qb vals c logs =
          prepareFiltersCore op fs
            (if qb = "" then (compileOne f c).1
              else qb ++ " " ++ (if op = "" then OperatorAnd else op) ++ " " ++ (compileOne f c).1)
            (vals ++ (compileOne f c).2.1) (compileOne f c).2.2.1
            (logs ++ (compileOne f c).2.2.2) := by
        simp [prepareFiltersCore, hfe]
      rw [hgoal] at h ⊢
      obtain ⟨extra2, hv2, _, _⟩ :=
        prepareFiltersCore_counter fs op
          (if qb = "" then (compileOne f c).1
            else qb ++ " " ++ (if op = "" then OperatorAnd else op) ++ " " ++ (compileOne f c).1)
          (vals ++ (compileOne f c).2.1) (compileOne f c).2.2.1
          (logs ++ (compileOne f c).2.2.2) hc'
      have hextra : extra = (compileOne f c).2.1 ++ extra2 := by
        have heq : vals ++ extra = vals ++ ((compileOne f c).2.1 ++ extra2) := by
          rw [← h, hv2, List.append_assoc]
        exact List.append_cancel_left heq
      have hrec := prepareFiltersCore_extract fs op
        (if qb = "" then (compileOne f c).1
          else qb ++ " " ++ (if op = "" then OperatorAnd else op) ++ " " ++ (compileOne f c).1)
        (vals ++ (compileOne f c).2.1) (compileOne f c).2.2.1
        (logs ++ (compileOne f c).2.2.2) hc' hfs2 hop extra2 hv2
      have hqb2 : phExtract (if qb = "" then (compileOne f c).1
          else qb ++ " " ++ (if op = "" then OperatorAnd else op) ++ " " ++ (compileOne f c).1).data =
          phExtract qb.data ++ phBlock c (compileOne f c).2.1.length := by
        by_cases hq : qb = ""
        · rw [if_pos hq, hq, compileOne_extract f c hc hf1]
          simp [data_empty, phExtract_nil]
        · rw [if_neg hq]
          have hopnd : '$' ∉ (if op = "" then OperatorAnd else op).data := by
            by_cases ho : op = ""
            · rw [if_pos ho]
              decide
            · rw [if_neg ho]
              exact noDollar_mem _ hop
          have hdata : (qb ++ " " ++ (if op = "" then OperatorAnd else op) ++ " " ++ (compileOne f c).1).data =
              qb.data ++ (' ' :: ((if op = "" then OperatorAnd else op).data ++
                (' ' :: (compileOne f c).1.data))) := by
            simp [string_data_append, data_space]
          rw [hdata, phExtract_append_split _
            (by
              intro ch hh
              simp at hh
              subst hh
              decide) qb.data.length qb.data (le_refl _),
            phExtract_skip_char ' ' (by decide) _,
            phExtract_skip_chunk _ hopnd _,
            phExtract_skip_char ' ' (by decide) _,
            compileOne_extract f c hc hf1]
      rw [hrec, hqb2, hextra, h1, List.append_assoc,
        phBlock_append (compileOne f c).2.1.length c extra2.length]
      simp
end

/- ===== The compiler's loop over an appended slice ===== -/

theorem prepareFiltersCore_append (gs : FilterList) (op : String) (fs : FilterList) :
    ∀ (qb : String) (vals : List Value) (c : Int) (logs : List String),
    prepareFiltersCore op (fs.append gs) qb vals c logs =
      prepareFiltersCore op gs (prepareFiltersCore op fs qb vals c logs).1
        (prepareFiltersCore op fs qb vals c logs).2.1
        (prepareFiltersCore op fs qb vals c logs).2.2.1
        (prepareFiltersCore op fs qb vals c logs).2.2.2 := by
  cases fs with
  | nil => intro qb vals c logs; rfl
  | cons f fs =>
    intro qb vals c logs
    simp only [FilterList.append, prepareFiltersCore]
    by_cases hfe : (compileOne f c).1 = ""
    · simp [hfe, prepareFiltersCore_append gs op fs]
    · simp [hfe, prepareFiltersCore_append gs op fs]

/- ===== Go map semantics ===== -/

theorem mapGet_mapSet (k : String) (v : Value) (j : String) : ∀ (m : List (String × Value)),
    mapGet (mapSet m k v) j = if j = k then some v else mapGet m j := by
  intro m
  induction m with
  | nil =>
    simp only [mapSet, mapGet]
    by_cases h : j = k
    · rw [if_pos h, if_pos h.symm]
    · rw [if_neg h, if_neg (fun e => h e.symm)]
  | cons e m ih =>
    obtain ⟨k1, v1⟩ := e
    by_cases h1 : k1 = k
    · subst h1
      have hset : mapSet ((k1, v1) :: m) k1 v = (k1, v) :: m := by
        simp [mapSet]
      rw [hset]
      by_cases h2 : j = k1
      · subst h2
        simp [mapGet]
      · rw [if_neg h2]
        simp only [mapGet]
        rw [if_neg (fun e => h2 e.symm), if_neg (fun e => h2 e.symm)]
    · have hset : mapSet ((k1, v1) :: m) k v = (k1, v1) :: mapSet m k v := by
        simp [mapSet, h1]
      rw [hset]
      simp only [mapGet]
      by_cases h3 : k1 = j
      · rw [if_pos h3, if_pos h3, if_neg (fun e => h1 (h3.trans e))]
      · rw [if_neg h3, if_neg h3, ih]

theorem mapGet_mapDel (k j : String) : ∀ (m : List (String × Value)),
    mapGet (mapDel m k) j = if j = k then none else mapGet m j := by
  intro m
  induction m with
  | nil =>
    by_cases h : j = k <;> simp [mapDel, mapGet, h]
  | cons e m ih =>
    obtain ⟨k1, v1⟩ := e
    by_cases h1 : k1 = k
    · have hdel : mapDel ((k1, v1) :: m) k = mapDel m k := by
        simp [mapDel, List.filter_cons, h1]
      rw [hdel, ih]
      by_cases h2 : j = k
      · rw [if_pos h2, if_pos h2]
      · rw [if_neg h2, if_neg h2]
        simp only [mapGet]
        rw [if_neg (fun e => h2 (e.symm.trans h1))]
    · have hdel : mapDel ((k1, v1) :: m) k = (k1, v1) :: mapDel m k := by
        simp [mapDel, List.filter_cons, h1]
      rw [hdel]
      simp only [mapGet]
      by_cases h3 : k1 = j
      · rw [if_pos h3, if_pos h3, if_neg (fun e => h1 (h3.trans e))]
      · rw [if_neg h3, if_neg h3, ih]

/- ===== prepareForeignKey totality ===== -/

theorem capitalizePart_none_iff (p : String) : capitalizePart p = none ↔ p = "" := by
  constructor
  · intro h
    cases hpd : p.data with
    | nil => exact (string_eq_empty_iff p).mpr hpd
    | cons c rest =>
      rw [capitalizePart, hpd] at h
      cases h
  · intro h
    subst h
    rfl

theorem prepareForeignKeyLoop_none (ps : List String) : ∀ (buffer : String),
    prepareForeignKeyLoop ps buffer = none ↔ "" ∈ ps := by
  induction ps with
  | nil =>
    intro buffer
    simp [prepareForeignKeyLoop]
  | cons p ps ih =>
    intro buffer
    by_cases hp : p = ""
    · subst hp
      have hcap : capitalizePart "" = none := (capitalizePart_none_iff "").mpr rfl
      simp [prepareForeignKeyLoop, hcap]
    · have hcap : ∃ cp, capitalizePart p = some cp := by
        cases hpd : p.data with
        | nil => exact absurd ((string_eq_empty_iff p).mpr hpd) hp
        | cons c rest => exact ⟨_, by rw [capitalizePart, hpd]⟩
      obtain ⟨cp, hcp⟩ := hcap
      rw [show prepareForeignKeyLoop (p :: ps) buffer =
        prepareForeignKeyLoop ps (buffer ++ cp) by simp [prepareForeignKeyLoop, hcp]]
      rw [ih (buffer ++ cp)]
      simp [List.mem_cons, Ne.symm hp]

/- ===== The compiled shape of the appended soft-delete group ===== -/

theorem softdelete_single_fold (d : String) (m : Int) :
    prepareFiltersCore OperatorOr
      (.cons (.single d Value.null (some ComparatorIsNull) (some OperatorOr)) .nil) "" [] m [] =
      (d ++ " " ++ ComparatorIsNull, [], m, []) := by
  have hne2 : (d ++ " " ++ ComparatorIsNull) ≠ "" := string_append_right_ne _ _ (by decide)
  have hsingle : compileOne (.single d Value.null (some ComparatorIsNull) (some OperatorOr)) m =
      (d ++ " " ++ ComparatorIsNull, [], m, []) := by
    simp [compileOne, ComparatorIsNull, ComparatorIsNotNull, ComparatorIn, ComparatorNotIn]
  simp [prepareFiltersCore, hsingle, hne2]

theorem softdelete_group_compile (d : String) (m : Int) (hm : 1 ≤ m) :
    compileOne (.group OperatorOr
      (.cons (.single d Value.null (some ComparatorIsNull) (some OperatorOr)) .nil)) m =
      ("(" ++ (d ++ " " ++ ComparatorIsNull) ++ ")", [], m, []) := by
  have hne2 : (d ++ " " ++ ComparatorIsNull) ≠ "" := string_append_right_ne _ _ (by decide)
  simp only [compileOne]
  rw [if_neg (by omega : ¬ m ≤ 0), softdelete_single_fold d m]
  rw [if_neg hne2]

/- ===== The claims ===== -/

/-- Claim C1: contrary to the claim, `Get` splits the whole dotted path at
once: for `"user.roles.permissions"` the relation name is `"user"` and the
child repository receives `Relations = ["roles", "permissions"]` — two
separate relation entries — not the single dotted string
`["roles.permissions"]` the claim (and the README) describe.  This theorem
evaluates the embedded split and child-option construction at that input. -/
theorem c1_relation_split_eval :
    splitRelation "user.roles.permissions" = ("user", ["roles", "permissions"]) ∧
    (loaderChildOptions (some ["roles", "permissions"])).relations = ["roles", "permissions"] ∧
    (["roles", "permissions"] : List String) ≠ ["roles.permissions"] := by
  refine ⟨by decide, by decide, by decide⟩

/-- Claim C4: contrary to the claim, `Update`'s SET-clause loop (src/sql.go
922-929) has no special case for `RawSQL` values: a raw-wrapped payload value
is bound as a `$n` parameter like any other value, not interpolated
literally.  Evaluated at the payload `{position: RawSQL("position + 1")}`. -/
theorem c4_rawsql_eval :
    updateSetClause [("position", Value.raw "position + 1")] (Value.time "T") =
      (["position = $1", "updated_at = $2"],
        [Value.raw "position + 1", Value.time "T"], 3) ∧
    ("position = $1" : String) ≠ "position = position + 1" := by
  refine ⟨by decide, by decide⟩

/-- Claim C5: a `Get` whose options set `OrderColumn` to a column outside the
repository's allowed set returns the invalid-order-column error and issues no
SQL statement: the run's action trace is empty. -/
theorem c5_invalid_order_column (c : Connection) (f : GroupFilter) (o : Options)
    (oracle : String → List Value → Except String (List Entity))
    (h1 : o.orderColumn ≠ "") (h2 : c.orderColumns.contains o.orderColumn = false) :
    getRun c f (some o) oracle = ([], .error ("invalid order column: " ++ o.orderColumn)) := by
  have hb : buildGetQuery c f (some o) = .error ("invalid order column: " ++ o.orderColumn) := by
    unfold buildGetQuery
    simp only []
    rw [if_pos h1, if_pos h2]
  unfold getRun
  rw [hb]

/-- Witness for C5 at a concrete repository and an order column outside its
whitelist. -/
theorem c5_invalid_order_column_witness :
    ({ orderColumn := "hack" } : Options).orderColumn ≠ "" ∧
    (({ table := "users", orderColumns := ["id"], softDelete := none } : Connection).orderColumns.contains
      ({ orderColumn := "hack" } : Options).orderColumn) = false ∧
    getRun { table := "users", orderColumns := ["id"], softDelete := none }
      { operator := "", filters := .nil } (some { orderColumn := "hack" })
      (fun _ _ => .ok []) =
      ([], .error ("invalid order column: " ++ ({ orderColumn := "hack" } : Options).orderColumn)) :=
  ⟨by decide, by decide,
    c5_invalid_order_column { table := "users", orderColumns := ["id"], softDelete := none }
      { operator := "", filters := .nil } { orderColumn := "hack" }
      (fun _ _ => .ok []) (by decide) (by decide)⟩

/-- Claim C6: a `models.Filter` whose comparator is `IN` or `NOT IN` is
skipped entirely by the compiler — empty fragment, no argument, unchanged
counter — while the diagnostic log line is emitted; in the loop it is
equivalent to dropping the element and appending the log line. -/
theorem c6_single_in_skipped (key : String) (value : Value) (op : Option String)
    (cmp : String) (c : Int) (hcmp : cmp = ComparatorIn ∨ cmp = ComparatorNotIn) :
    compileOne (.single key value (some cmp) op) c = ("", [], c, [filterInLogMessage]) ∧
    (∀ (gop : String) (fs : FilterList) (qb : String) (vals : List Value) (logs : List String),
      prepareFiltersCore gop (.cons (.single key value (some cmp) op) fs) qb vals c logs =
        prepareFiltersCore gop fs qb vals c (logs ++ [filterInLogMessage])) := by
  have h1 : compileOne (.single key value (some cmp) op) c = ("", [], c, [filterInLogMessage]) := by
    rcases hcmp with h | h <;> subst h <;>
      simp [compileOne, ComparatorIn, ComparatorNotIn, ComparatorIsNull, ComparatorIsNotNull]
  refine ⟨h1, ?_⟩
  intro gop fs qb vals logs
  simp [prepareFiltersCore, h1]

/-- Witness for C6 at the `IN` comparator on a concrete single filter. -/
theorem c6_single_in_skipped_witness :
    (("IN" : String) = ComparatorIn ∨ ("IN" : String) = ComparatorNotIn) ∧
    compileOne (.single "id" (.int 1) (some "IN") none) 1 = ("", [], 1, [filterInLogMessage]) :=
  ⟨Or.inl rfl, (c6_single_in_skipped "id" (.int 1) none "IN" 1 (Or.inl rfl)).1⟩

/-- Claim C7: with a configured soft-delete column, `Delete` issues no
`DELETE` statement, delegates to `Update(filters, {deleted_at: now})` and
returns nil regardless of the inner `Update`'s outcome (the `updateOracle`
is universally quantified, so any inner error is discarded); re-running it
on an already-soft-deleted row is therefore the same no-op success. -/
theorem c7_softdelete_delete_success (c : Connection) (f : GroupFilter) (now : Value)
    (updateOracle : GroupFilter → List (String × Value) → Except String Entity)
    (execOracle : String → List Value → Except String Int)
    (d : String) (hd : c.softDelete = some d) (hne : d ≠ "") :
    deleteRun c f now updateOracle execOracle =
      ([.updateCall f [("deleted_at", now)]], none) := by
  unfold deleteRun
  rw [hd]
  show (if d ≠ "" then ([DbAction.updateCall f [("deleted_at", now)]], (none : Option String))
      else deleteRun.deleteHard c f execOracle) =
    ([DbAction.updateCall f [("deleted_at", now)]], none)
  rw [if_pos hne]

/-- Witness for C7 at a concrete repository whose inner `Update` fails: the
result is still success. -/
theorem c7_softdelete_delete_success_witness :
    ({ table := "t", orderColumns := [], softDelete := some "deleted_at" } : Connection).softDelete =
      some "deleted_at" ∧
    ("deleted_at" : String) ≠ "" ∧
    deleteRun { table := "t", orderColumns := [], softDelete := some "deleted_at" }
      { operator := "", filters := .nil } (Value.time "T")
      (fun _ _ => .error "update failed") (fun _ _ => .ok 1) =
      ([.updateCall { operator := "", filters := .nil } [("deleted_at", Value.time "T")]], none) :=
  ⟨rfl, by decide,
    c7_softdelete_delete_success { table := "t", orderColumns := [], softDelete := some "deleted_at" }
      { operator := "", filters := .nil } (Value.time "T")
      (fun _ _ => .error "update failed") (fun _ _ => .ok 1) "deleted_at" rfl (by decide)⟩

/-- Claim C8: each of the three loader shapes returns immediately — no SQL
action, nil error — when its parent list is empty, so a `Get` whose primary
query returned zero rows never issues a relation query. -/
theorem c8_loaders_empty_parents :
    (∀ (l : OnetoManyLoader) (g : GroupFilter → Options → Except String (List Entity))
      (childs : Option (List String)), onetoManyLoad l g [] childs = ([], none)) ∧
    (∀ (m : ManyToManyLoader) (po : String → List Value → Except String (List (Value × Value)))
      (g : GroupFilter → Options → Except String (List Entity)) (childs : Option (List String)),
      manyToManyLoad m po g [] childs = ([], none)) ∧
    (∀ (l : OnetoOneLoader) (g : GroupFilter → Options → Except String Entity)
      (childs : Option (List String)), onetoOneLoad l g [] childs = ([], none)) := by
  refine ⟨?_, ?_, ?_⟩ <;> intros <;> rfl

/-- Claim C10: `prepareForeignKey` capitalizes the first character of every
underscore-separated segment and is partial exactly on inputs with an empty
segment (Go panics on `part[:1]` there, modeled as `none`): the empty
string, a leading or trailing underscore, or a doubled underscore all panic,
while `user_id` maps to `UserId`. -/
theorem c10_prepareForeignKey_total_iff :
    (∀ s : String, prepareForeignKey s = none ↔ "" ∈ goSplit s '_') ∧
    prepareForeignKey "user_id" = some "UserId" ∧
    prepareForeignKey "" = none ∧
    prepareForeignKey "a_" = none ∧
    prepareForeignKey "_a" = none ∧
    prepareForeignKey "a__b" = none := by
  refine ⟨?_, by decide, by decide, by decide, by decide, by decide⟩
  intro s
  exact prepareForeignKeyLoop_none (goSplit s '_') ""

/-- Claim C2 counterexample: the claim says the rewritten filter compiles to
`(fragment) OR (d IS NULL)`, but on the group `{status = "active"}` with
soft-delete column `deleted_at` the compiled fragment joins the tombstone
group with `AND` (the incoming group's default operator), not `OR`. -/
theorem c2_softdelete_or_counterexample :
    (prepareFilters (prepareSoftDelete (some "deleted_at") statusGroup) 1).1 =
      "status = $1 AND (deleted_at IS NULL)" ∧
    (prepareFilters (prepareSoftDelete (some "deleted_at") statusGroup) 1).1 ≠
      "status = $1 OR (deleted_at IS NULL)" := by
  refine ⟨by decide, by decide⟩

/-- Claim C2 amended: `prepareSoftDelete` appends a group whose single child
is `d IS NULL`, and the compiler joins that group to the original fragment
with the *incoming group's* operator — `AND` when the operator field is
empty — not `OR`; when the incoming group has no filters the result is just
the tombstone fragment `d IS NULL` with no arguments. -/
theorem c2_softdelete_join_amended (d : String) (hd : d ≠ "") (F : GroupFilter) (n : Int)
    (hn : 1 ≤ n) :
    (F.filters = .nil →
      prepareFilters (prepareSoftDelete (some d) F) n =
        (d ++ " " ++ ComparatorIsNull, [], n, [])) ∧
    (F.filters ≠ .nil → (prepareFilters F n).1 ≠ "" →
      prepareFilters (prepareSoftDelete (some d) F) n =
        ((prepareFilters F n).1 ++ " " ++ (if F.operator = "" then OperatorAnd else F.operator) ++
            " " ++ ("(" ++ (d ++ " " ++ ComparatorIsNull) ++ ")"),
          (prepareFilters F n).2.1, (prepareFilters F n).2.2.1, (prepareFilters F n).2.2.2)) := by
  have hn0 : (if n ≤ 0 then 1 else n) = n := if_neg (by omega)
  constructor
  · intro hnil
    have hsd : prepareSoftDelete (some d) F =
        { operator := OperatorOr,
          filters := .cons (.single d Value.null (some ComparatorIsNull) (some OperatorOr)) .nil } := by
      unfold prepareSoftDelete
      show (if d = "" then F
        else if 0 < F.filters.length then
          { operator := F.operator, filters := F.filters.append (.cons (.group OperatorOr
            (.cons (.single d Value.null (some ComparatorIsNull) (some OperatorOr)) .nil)) .nil) }
        else
          { operator := OperatorOr,
            filters := .cons (.single d Value.null (some ComparatorIsNull) (some OperatorOr)) .nil }) = _
      rw [if_neg hd, hnil]
      rfl
    rw [hsd]
    unfold prepareFilters
    rw [hn0]
    exact softdelete_single_fold d n
  · intro hne hq
    have hlen : 0 < F.filters.length := by
      cases hfs : F.filters with
      | nil => exact absurd hfs hne
      | cons f fs => simp [FilterList.length]
    have hsd : prepareSoftDelete (some d) F =
        { F with filters := F.filters.append (.cons (.group OperatorOr
            (.cons (.single d Value.null (some ComparatorIsNull) (some OperatorOr)) .nil)) .nil) } := by
      unfold prepareSoftDelete
      show (if d = "" then F
        else if 0 < F.filters.length then
          { operator := F.operator, filters := F.filters.append (.cons (.group OperatorOr
            (.cons (.single d Value.null (some ComparatorIsNull) (some OperatorOr)) .nil)) .nil) }
        else
          { operator := OperatorOr,
            filters := .cons (.single d Value.null (some ComparatorIsNull) (some OperatorOr)) .nil }) = _
      rw [if_neg hd, if_pos hlen]
    unfold prepareFilters at hq ⊢
    rw [hn0] at hq ⊢
    rw [hsd]
    show prepareFiltersCore F.operator (F.filters.append (.cons (.group OperatorOr
        (.cons (.single d Value.null (some ComparatorIsNull) (some OperatorOr)) .nil)) .nil)) "" [] n [] = _
    rw [prepareFiltersCore_append]
    obtain ⟨extra, hvals, hcount, _⟩ :=
      prepareFiltersCore_counter F.filters F.operator "" [] n [] hn
    have hc1 : 1 ≤ (prepareFiltersCore F.operator F.filters "" [] n []).2.2.1 := by
      rw [hcount]
      omega
    have hcur : ("(" ++ (d ++ " " ++ ComparatorIsNull) ++ ")" : String) ≠ "" :=
      string_append_right_ne _ _ (by decide)
    simp only [prepareFiltersCore]
    rw [softdelete_group_compile d _ hc1]
    simp [hcur, hq]

/-- Witness for the amended C2 at the group `{status = "active"}`, soft-delete
column `deleted_at` and base index 1. -/
theorem c2_softdelete_join_amended_witness :
    ("deleted_at" : String) ≠ "" ∧
    statusGroup.filters ≠ .nil ∧
    (prepareFilters statusGroup 1).1 ≠ "" ∧
    prepareFilters (prepareSoftDelete (some "deleted_at") statusGroup) 1 =
      ((prepareFilters statusGroup 1).1 ++ " " ++
          (if statusGroup.operator = "" then OperatorAnd else statusGroup.operator) ++
          " " ++ ("(" ++ ("deleted_at" ++ " " ++ ComparatorIsNull) ++ ")"),
        (prepareFilters statusGroup 1).2.1,
        (prepareFilters statusGroup 1).2.2.1,
        (prepareFilters statusGroup 1).2.2.2) :=
  ⟨by decide, fun h => FilterList.noConfusion h, by decide,
    (c2_softdelete_join_amended "deleted_at" (by decide) statusGroup 1 (by decide)).2
      (fun h => FilterList.noConfusion h) (by decide)⟩

/-- Claim C3: for every filter tree whose keys, comparators and operators are
free of the placeholder marker `$`, and every starting index `n ≥ 1`, the
compiled fragment's placeholder tokens are exactly the decimal renderings of
`n, n+1, ..., n+len(args)-1` in left-to-right order, their number equals the
length of the returned argument list, and the returned next index is
`n + len(args)`. -/
theorem c3_prepareFilters_dense (g : GroupFilter) (n : Int) (hn : 1 ≤ n)
    (hg : cleanGroup g = true) :
    (prepareFilters g n).2.2.1 = n + ((prepareFilters g n).2.1.length : Int) ∧
    phExtract (prepareFilters g n).1.data = phBlock n (prepareFilters g n).2.1.length ∧
    (phExtract (prepareFilters g n).1.data).length = (prepareFilters g n).2.1.length := by
  have hg' : noDollar g.operator = true ∧ cleanFilterList g.filters = true := by
    simpa [cleanGroup, Bool.and_eq_true] using hg
  have hn0 : (if n ≤ 0 then 1 else n) = n := if_neg (by omega)
  obtain ⟨extra, hvals, hcount, _⟩ :=
    prepareFiltersCore_counter g.filters g.operator "" [] n [] hn
  have hvals0 : (prepareFiltersCore g.operator g.filters "" [] n []).2.1 = extra := by
    simpa using hvals
  have hvals' : (prepareFiltersCore g.operator g.filters "" [] n []).2.1 = [] ++ extra := by
    simpa using hvals
  have hext := prepareFiltersCore_extract g.filters g.operator "" [] n [] hn hg'.2 hg'.1
    extra hvals'
  unfold prepareFilters
  rw [hn0]
  refine ⟨?_, ?_, ?_⟩
  · rw [hcount, hvals0]
  · rw [hext, hvals0]
    simp [data_empty, phExtract_nil]
  · rw [hext, hvals0]
    simp [data_empty, phExtract_nil, phBlock_length]

/-- Witness for C3 at the tree `status = "active" AND id IN (1, 2)` and base
index 1. -/
theorem c3_prepareFilters_dense_witness :
    (1 : Int) ≤ 1 ∧
    cleanGroup statusInGroup = true ∧
    ((prepareFilters statusInGroup 1).2.2.1 =
        1 + ((prepareFilters statusInGroup 1).2.1.length : Int) ∧
      phExtract (prepareFilters statusInGroup 1).1.data =
        phBlock 1 (prepareFilters statusInGroup 1).2.1.length ∧
      (phExtract (prepareFilters statusInGroup 1).1.data).length =
        (prepareFilters statusInGroup 1).2.1.length) :=
  ⟨by decide, by decide, c3_prepareFilters_dense statusInGroup 1 (by decide) (by decide)⟩

/-- Claim C9: the payload and option mutations of `Create`, `Update` and
`GetOne` touch exactly the claimed keys of the caller's inputs.  With default
options, `Create` writes the generated id under `id` and stamps `created_at`
and `updated_at`, leaving every other key unchanged; `Update` removes `id`
and `created_at` and stamps `updated_at`, leaving every other key unchanged;
`GetOne` sets `Limit = 1` on the caller's options and leaves every other
field unchanged. -/
theorem c9_inputs_frame (data : List (String × Value)) (uuid : String) (now : Value)
    (o : Options) (k : String) :
    ((k ≠ "id" → k ≠ "created_at" → k ≠ "updated_at" →
        mapGet (createPrepareData data none uuid now) k = mapGet data k) ∧
      mapGet (createPrepareData data none uuid now) "id" = some (Value.str uuid) ∧
      mapGet (createPrepareData data none uuid now) "created_at" = some now ∧
      mapGet (createPrepareData data none uuid now) "updated_at" = some now) ∧
    ((k ≠ "id" → k ≠ "created_at" → k ≠ "updated_at" →
        mapGet (updatePrepareData data now) k = mapGet data k) ∧
      mapGet (updatePrepareData data now) "id" = none ∧
      mapGet (updatePrepareData data now) "created_at" = none ∧
      mapGet (updatePrepareData data now) "updated_at" = some now) ∧
    ((getOnePrepareOptions (some o)).limit = 1 ∧
      (getOnePrepareOptions (some o)).columns = o.columns ∧
      (getOnePrepareOptions (some o)).offset = o.offset ∧
      (getOnePrepareOptions (some o)).orderColumn = o.orderColumn ∧
      (getOnePrepareOptions (some o)).orderDir = o.orderDir ∧
      (getOnePrepareOptions (some o)).relations = o.relations ∧
      (getOnePrepareOptions (some o)).primaryKey = o.primaryKey ∧
      (getOnePrepareOptions (some o)).insertPrimaryKey = o.insertPrimaryKey ∧
      (getOnePrepareOptions (some o)).timestampsFields = o.timestampsFields) := by
  have hcd : createPrepareData data none uuid now =
      mapSet (mapSet (mapSet data "id" (Value.str uuid)) "created_at" now) "updated_at" now := rfl
  have hud : updatePrepareData data now =
      mapSet (mapDel (mapDel data "id") "created_at") "updated_at" now := rfl
  refine ⟨⟨?_, ?_, ?_, ?_⟩, ⟨?_, ?_, ?_, ?_⟩, rfl, rfl, rfl, rfl, rfl, rfl, rfl, rfl, rfl⟩
  · intro h1 h2 h3
    rw [hcd, mapGet_mapSet, if_neg h3, mapGet_mapSet, if_neg h2, mapGet_mapSet, if_neg h1]
  · rw [hcd, mapGet_mapSet, if_neg (by decide), mapGet_mapSet, if_neg (by decide),
      mapGet_mapSet, if_pos rfl]
  · rw [hcd, mapGet_mapSet, if_neg (by decide), mapGet_mapSet, if_pos rfl]
  · rw [hcd, mapGet_mapSet, if_pos rfl]
  · intro h1 h2 h3
    rw [hud, mapGet_mapSet, if_neg h3, mapGet_mapDel, if_neg h2, mapGet_mapDel, if_neg h1]
  · rw [hud, mapGet_mapSet, if_neg (by decide), mapGet_mapDel, if_neg (by decide),
      mapGet_mapDel, if_pos rfl]
  · rw [hud, mapGet_mapSet, if_neg (by decide), mapGet_mapDel, if_pos rfl]
  · rw [hud, mapGet_mapSet, if_pos rfl]

/-- Witness for C9 at a concrete payload and key. -/
theorem c9_inputs_frame_witness :
    mapGet (createPrepareData [("name", Value.str "x")] none "u1" (Value.time "T")) "name" =
      mapGet [("name", Value.str "x")] "name" ∧
    mapGet (updatePrepareData [("name", Value.str "x"), ("id", Value.str "old")] (Value.time "T")) "id" =
      none ∧
    (getOnePrepareOptions (some { limit := 50 })).limit = 1 :=
  ⟨((c9_inputs_frame [("name", Value.str "x")] "u1" (Value.time "T") { limit := 50 } "name").1).1
      (by decide) (by decide) (by decide),
    ((c9_inputs_frame [("name", Value.str "x"), ("id", Value.str "old")] "u1" (Value.time "T")
        { limit := 50 } "name").2).1.2.1,
    ((c9_inputs_frame [("name", Value.str "x")] "u1" (Value.time "T") { limit := 50 } "name").2).2.1⟩

end godbsql
